import Mathlib

/-!
Verification of the note-keeper backend's core: the `Note` entity model and the
`InMemoryNotesRepository` store (`src/notes_backend/app/models.py`), together
with the one piece of the HTTP façade's PATCH handler that a claim refers to
(`src/notes_backend/app/routes/notes.py`).

Embedding conventions:
* The Python store `self._data : Dict[str, Note]` is an insertion-ordered
  mapping from `note.id` to the note.  It is embedded as a `List Note` in
  insertion order, keyed by the `id` field; `dictGet`, `dictSet` and
  `dictDel` embed Python dict lookup, assignment and deletion (assignment to
  an existing key replaces the binding in place, assignment to a new key
  appends; dict keys are unique, which the association-list operations mirror).
* Per the spec (section 6) the clock and the unique-id generator are injected
  capabilities: `datetime.utcnow().isoformat()` is passed in as a string
  argument `t`, and `str(uuid.uuid4())` as a string argument `freshId`.
  `Note.now_iso` keeps the code's `isoformat() + "Z"` suffixing.
* Mutating methods are embedded as state transformers returning
  `result × Store`; `list` performs no assignment to `_data`, so its embedding
  returns the store unchanged.
-/

set_option autoImplicit false

namespace NoteKeeper

/-- The `Note` dataclass of `models.py`: id, title, content and two ISO
timestamp strings. -/
structure Note where
  id : String
  title : String
  content : String
  created_at : String
  updated_at : String
  deriving DecidableEq, Repr

/-- `Note.now_iso`: `datetime.utcnow().isoformat() + "Z"`.  The raw
`isoformat()` string `t` is the injected clock reading. -/
def Note.now_iso (t : String) : String := t ++ "Z"

/-- `Note.new`: fresh id from the injected generator, both timestamps set to
the current `now_iso` reading, title and content stored verbatim. -/
def Note.new (title content : String) (freshId t : String) : Note :=
  { id := freshId
    title := title
    content := content
    created_at := Note.now_iso t
    updated_at := Note.now_iso t }

/-- The store's collection `self._data`, as the list of notes in dict
insertion order (each note keyed by its `id`). -/
abbrev Store := List Note

/-- Python `self._data.get(k)`: first (and, with unique keys, only) note whose
id is `k`. -/
def dictGet (s : Store) (k : String) : Option Note :=
  s.find? (fun n => n.id == k)

/-- Python `self._data[n.id] = n`: replace the binding in place when the key
exists, append otherwise. -/
def dictSet : Store → Note → Store
  | [], n => [n]
  | m :: ms, n => if m.id == n.id then n :: ms else m :: dictSet ms n

/-- Python `del self._data[k]`: drop the binding with key `k`. -/
def dictDel (s : Store) (k : String) : Store :=
  s.filter (fun n => !(n.id == k))

/-- Python list slice `xs[i:j]` for arbitrary integer bounds: negative indices
count from the end, bounds are clamped to `[0, len(xs)]`. -/
def pySlice (xs : List Note) (i j : Int) : List Note :=
  let n : Int := xs.length
  let norm : Int → Nat := fun k => if k < 0 then (max (n + k) 0).toNat else (min k n).toNat
  (xs.take (norm j)).drop (norm i)

/-- The `meta` dict built by `InMemoryNotesRepository.list`. -/
structure PageMeta where
  total : Nat
  total_pages : Int
  first_page : Nat
  last_page : Int
  page : Int
  previous_page : Option Int
  next_page : Option Int
  deriving DecidableEq, Repr

/-- The `{"items": ..., "meta": ...}` dict returned by `list`. -/
structure ListResult where
  items : List Note
  meta : PageMeta
  deriving DecidableEq, Repr

namespace InMemoryNotesRepository

/-- `InMemoryNotesRepository.list` (models.py lines 137-153).  `items` is the
slice `items[start:end]` with `start = (page - 1) * page_size` and
`end = start + page_size`; `total_pages` is
`(total + page_size - 1) // page_size if page_size > 0 else 1` (Python `//`
is floor division, hence `Int.fdiv`).  The method performs no assignment to
`_data`, so the store comes back unchanged. -/
def list (s : Store) (page page_size : Int) : ListResult × Store :=
  let items : List Note := s
  let total : Nat := items.length
  let start : Int := (page - 1) * page_size
  let stop : Int := start + page_size
  let page_items := pySlice items start stop
  let total_pages : Int := if page_size > 0 then ((total : Int) + page_size - 1).fdiv page_size else 1
  (⟨page_items,
    { total := total
      total_pages := total_pages
      first_page := if total > 0 then 1 else 0
      last_page := if total > 0 then total_pages else 0
      page := page
      previous_page := if page > 1 then some (page - 1) else none
      next_page := if page < total_pages then some (page + 1) else none }⟩, s)

/-- `InMemoryNotesRepository.get` (models.py lines 155-156): dict lookup. -/
def get (s : Store) (note_id : String) : Option Note :=
  dictGet s note_id

/-- `InMemoryNotesRepository.create` (models.py lines 158-161): build via
`Note.new`, store under `note.id`, return the note. -/
def create (s : Store) (title content : String) (freshId t : String) : Note × Store :=
  let note := Note.new title content freshId t
  (note, dictSet s note)

/-- `InMemoryNotesRepository.update` (models.py lines 163-173).  `if not note`
on a dataclass instance is a none-check (instances are always truthy); each
supplied field overwrites the old value, `updated_at` is set to the current
`now_iso` reading, and the note is stored back under the same key. -/
def update (s : Store) (note_id : String) (title content : Option String) (t : String) :
    Option Note × Store :=
  match dictGet s note_id with
  | none => (none, s)
  | some note =>
    let note1 := match title with
      | some v => { note with title := v }
      | none => note
    let note2 := match content with
      | some v => { note1 with content := v }
      | none => note1
    let note3 := { note2 with updated_at := Note.now_iso t }
    (some note3, dictSet s note3)

/-- `InMemoryNotesRepository.delete` (models.py lines 175-179): remove the
binding and report `true` when the key is present, otherwise `false`. -/
def delete (s : Store) (note_id : String) : Bool × Store :=
  if s.any (fun n => n.id == note_id) then (true, dictDel s note_id) else (false, s)

end InMemoryNotesRepository

/-- One store call, for reasoning about arbitrary operation sequences.  The
clock reading of a `create` or `update` travels with the call. -/
inductive Op where
  | create (title content freshId t : String)
  | update (note_id : String) (title content : Option String) (t : String)
  | delete (note_id : String)

/-- The store state after one call. -/
def applyOp (s : Store) : Op → Store
  | .create title content freshId t => (InMemoryNotesRepository.create s title content freshId t).2
  | .update note_id title content t => (InMemoryNotesRepository.update s note_id title content t).2
  | .delete note_id => (InMemoryNotesRepository.delete s note_id).2

/-- The store state after a sequence of calls. -/
def run (s : Store) : List Op → Store
  | [] => s
  | op :: ops => run (applyOp s op) ops

/-- Outcome of the façade's PATCH handler, as far as the store contract is
concerned. -/
inductive PatchOutcome where
  | badRequest
  | notFound
  | ok (n : Note)
  deriving DecidableEq, Repr

namespace NoteItem

/-- `NoteItem.patch` (routes/notes.py lines 147-181), reduced to its control
flow: `if not payload` rejects an empty payload dict with 400 BAD_REQUEST
before the store is called (the payload dict is empty exactly when neither
`title` nor `content` was provided: `NoteUpdateSchema` admits no null values),
otherwise the store's `update` runs and `None` becomes 404 NOT_FOUND. -/
def patch (s : Store) (note_id : String) (title content : Option String) (t : String) :
    PatchOutcome × Store :=
  if title = none ∧ content = none then (.badRequest, s)
  else
    match InMemoryNotesRepository.update s note_id title content t with
    | (none, s') => (.notFound, s')
    | (some n, s') => (.ok n, s')

end NoteItem

/-! ### Basic lemmas about the dict embedding -/

/-- Looking up the key just assigned returns the assigned note. -/
theorem dictGet_dictSet_self (s : Store) (n : Note) : dictGet (dictSet s n) n.id = some n := by
  induction s with
  | nil => simp [dictGet, dictSet]
  | cons m ms ih =>
    by_cases h : m.id = n.id
    · simp [dictGet, dictSet, h]
    · have h' : (m.id == n.id) = false := by simp [h]
      simp only [dictSet, h', Bool.false_eq_true, if_false]
      simpa [dictGet, h'] using ih

/-- A successful lookup returns a note carrying the looked-up key. -/
theorem dictGet_id {s : Store} {k : String} {n : Note} (h : dictGet s k = some n) :
    n.id = k := by
  have := List.find?_some h
  simpa [beq_iff_eq] using this

/-- A successful lookup returns a member of the collection. -/
theorem dictGet_mem {s : Store} {k : String} {n : Note} (h : dictGet s k = some n) :
    n ∈ s := List.mem_of_find?_eq_some h

/-- Assigning to a key that is already bound keeps the key sequence (and hence
the size and the insertion order of the keys) unchanged. -/
theorem dictSet_map_id {s : Store} {n m : Note} (h : dictGet s n.id = some m) :
    (dictSet s n).map Note.id = s.map Note.id := by
  induction s with
  | nil => simp [dictGet] at h
  | cons a l ih =>
    by_cases ha : a.id = n.id
    · simp [dictSet, ha]
    · have ha' : (a.id == n.id) = false := by simp [ha]
      have h' : dictGet l n.id = some m := by
        simpa [dictGet, ha'] using h
      simp [dictSet, ha', ih h']

/-- Looking up a key bound in the store after assigning a different note
keyed elsewhere is unaffected...  specialised form used below: after
`dictSet s n`, the lookup of `n.id` is `some n` (proved above); here:
every member of `dictSet s n` is either `n` or a member of `s`. -/
theorem mem_dictSet {s : Store} {n x : Note} (h : x ∈ dictSet s n) : x = n ∨ x ∈ s := by
  induction s with
  | nil => simpa [dictSet] using h
  | cons m ms ih =>
    by_cases hm : m.id = n.id
    · have : x ∈ n :: ms := by simpa [dictSet, hm] using h
      rcases List.mem_cons.mp this with h1 | h1
      · exact Or.inl h1
      · exact Or.inr (List.mem_cons_of_mem _ h1)
    · have hm' : (m.id == n.id) = false := by simp [hm]
      have : x = m ∨ x ∈ dictSet ms n := by simpa [dictSet, hm'] using h
      rcases this with h1 | h1
      · exact Or.inr (by simp [h1])
      · rcases ih h1 with h2 | h2
        · exact Or.inl h2
        · exact Or.inr (List.mem_cons_of_mem _ h2)

/-! ### C8: create -/

/-- C8: `create(title, content)` always succeeds: the new note carries the
injected fresh id, the given title and content verbatim, and
`created_at = updated_at = now_iso(t) = t ++ "Z"` (the ISO text of the UTC
clock reading with the trailing zone marker); the note is inserted and
returned, and a subsequent `get` on the returned id yields exactly it. -/
theorem create_spec (s : Store) (title content freshId t : String) :
    (InMemoryNotesRepository.create s title content freshId t).1.id = freshId
    ∧ (InMemoryNotesRepository.create s title content freshId t).1.title = title
    ∧ (InMemoryNotesRepository.create s title content freshId t).1.content = content
    ∧ (InMemoryNotesRepository.create s title content freshId t).1.created_at = t ++ "Z"
    ∧ (InMemoryNotesRepository.create s title content freshId t).1.updated_at
        = (InMemoryNotesRepository.create s title content freshId t).1.created_at
    ∧ InMemoryNotesRepository.get (InMemoryNotesRepository.create s title content freshId t).2
        (InMemoryNotesRepository.create s title content freshId t).1.id
        = some (InMemoryNotesRepository.create s title content freshId t).1 := by
  refine ⟨rfl, rfl, rfl, rfl, rfl, ?_⟩
  exact dictGet_dictSet_self s (Note.new title content freshId t)

/-! ### C10: list is read-only and deterministic -/

/-- C10: `list` leaves the store's collection unchanged (the very list of
notes, fields and insertion order included), and a second `list` call with the
same arguments on the resulting state returns the same result. -/
theorem list_readonly (s : Store) (page page_size : Int) :
    (InMemoryNotesRepository.list s page page_size).2 = s
    ∧ (InMemoryNotesRepository.list
          (InMemoryNotesRepository.list s page page_size).2 page page_size).1
        = (InMemoryNotesRepository.list s page page_size).1 :=
  ⟨rfl, rfl⟩

/-! ### C5: not-found consistency -/

/-- C5: on an id bound to no note in the store, `get` returns `None`,
`update` returns `None` and leaves the store untouched, and `delete` returns
`False` and leaves the store untouched (hence its size unchanged); all three
return normally. -/
theorem notfound_consistency (s : Store) (note_id : String) (title content : Option String)
    (t : String) (h : ∀ n ∈ s, n.id ≠ note_id) :
    InMemoryNotesRepository.get s note_id = none
    ∧ InMemoryNotesRepository.update s note_id title content t = (none, s)
    ∧ InMemoryNotesRepository.delete s note_id = (false, s) := by
  have hget : dictGet s note_id = none := by
    rw [dictGet, List.find?_eq_none]
    intro n hn
    simpa using h n hn
  have hany : (s.any fun n => n.id == note_id) = false := by
    rw [List.any_eq_false]
    intro n hn
    simpa using h n hn
  refine ⟨hget, ?_, ?_⟩
  · rw [InMemoryNotesRepository.update, hget]
  · rw [InMemoryNotesRepository.delete, hany]
    simp

/-- Witness for C5 at a concrete store and id. -/
theorem notfound_consistency_witness :
    InMemoryNotesRepository.get [Note.new "a" "b" "id1" "t0"] "id2" = none
    ∧ InMemoryNotesRepository.update [Note.new "a" "b" "id1" "t0"] "id2" none none "t1"
        = (none, [Note.new "a" "b" "id1" "t0"])
    ∧ InMemoryNotesRepository.delete [Note.new "a" "b" "id1" "t0"] "id2"
        = (false, [Note.new "a" "b" "id1" "t0"]) :=
  notfound_consistency [Note.new "a" "b" "id1" "t0"] "id2" none none "t1" (by decide)

/-! ### C4 and C9: update -/

/-- Evaluation of `update` when the id is bound: the stored and returned note
keeps `id` and `created_at`, takes each supplied field, and gets the fresh
`updated_at` stamp. -/
theorem update_found (s : Store) (note_id : String) (title content : Option String)
    (t : String) (note : Note) (h : dictGet s note_id = some note) :
    InMemoryNotesRepository.update s note_id title content t
      = (some { id := note.id
                title := title.getD note.title
                content := content.getD note.content
                created_at := note.created_at
                updated_at := Note.now_iso t },
         dictSet s { id := note.id
                     title := title.getD note.title
                     content := content.getD note.content
                     created_at := note.created_at
                     updated_at := Note.now_iso t }) := by
  rw [InMemoryNotesRepository.update, h]
  cases title <;> cases content <;> rfl

/-- C4: on a note present in the store, `update` overwrites exactly the
supplied (non-absent) fields and keeps the absent ones, keeps `id` and
`created_at`, refreshes `updated_at` to the current clock reading even when
no field was supplied or changed, returns the full updated note, and stores
that same note back under the id. -/
theorem update_overwrites_supplied_fields (s : Store) (note_id : String) (note : Note)
    (title content : Option String) (t : String)
    (h : InMemoryNotesRepository.get s note_id = some note) :
    (InMemoryNotesRepository.update s note_id title content t).1
      = some { id := note.id
               title := title.getD note.title
               content := content.getD note.content
               created_at := note.created_at
               updated_at := Note.now_iso t }
    ∧ InMemoryNotesRepository.get (InMemoryNotesRepository.update s note_id title content t).2
        note_id
      = (InMemoryNotesRepository.update s note_id title content t).1 := by
  have hid : note.id = note_id := dictGet_id h
  have hupd := update_found s note_id title content t note h
  refine ⟨by rw [hupd], ?_⟩
  rw [hupd, InMemoryNotesRepository.get]
  have := dictGet_dictSet_self s
      { id := note.id
        title := title.getD note.title
        content := content.getD note.content
        created_at := note.created_at
        updated_at := Note.now_iso t }
  simpa [hid] using this

/-- Witness for C4: a partial update changing only the title. -/
theorem update_overwrites_supplied_fields_witness :
    (InMemoryNotesRepository.update [Note.new "a" "b" "id1" "t0"] "id1" (some "X") none "t1").1
      = some { id := "id1", title := "X", content := "b",
               created_at := "t0" ++ "Z", updated_at := Note.now_iso "t1" }
    ∧ InMemoryNotesRepository.get
        (InMemoryNotesRepository.update [Note.new "a" "b" "id1" "t0"] "id1" (some "X") none "t1").2
        "id1"
      = (InMemoryNotesRepository.update [Note.new "a" "b" "id1" "t0"] "id1" (some "X") none "t1").1 :=
  update_overwrites_supplied_fields [Note.new "a" "b" "id1" "t0"] "id1"
    (Note.new "a" "b" "id1" "t0") (some "X") none "t1" (by decide)

/-- C9: the store's `update` with both fields absent is not rejected: it
succeeds, keeps title and content, still refreshes `updated_at`, and returns
the note; the empty-payload rejection lives only in the HTTP façade's PATCH
handler, which answers 400 BAD_REQUEST without touching the store. -/
theorem update_empty_payload (s : Store) (note_id : String) (note : Note) (t : String)
    (h : InMemoryNotesRepository.get s note_id = some note) :
    (InMemoryNotesRepository.update s note_id none none t).1
      = some { note with updated_at := Note.now_iso t }
    ∧ NoteItem.patch s note_id none none t = (PatchOutcome.badRequest, s) := by
  refine ⟨?_, by rw [NoteItem.patch, if_pos ⟨rfl, rfl⟩]⟩
  have := (update_overwrites_supplied_fields s note_id note none none t h).1
  simpa using this

/-- Witness for C9 at a concrete one-note store. -/
theorem update_empty_payload_witness :
    (InMemoryNotesRepository.update [Note.new "a" "b" "id1" "t0"] "id1" none none "t1").1
      = some { Note.new "a" "b" "id1" "t0" with updated_at := Note.now_iso "t1" }
    ∧ NoteItem.patch [Note.new "a" "b" "id1" "t0"] "id1" none none "t1"
      = (PatchOutcome.badRequest, [Note.new "a" "b" "id1" "t0"]) :=
  update_empty_payload [Note.new "a" "b" "id1" "t0"] "id1" (Note.new "a" "b" "id1" "t0") "t1"
    (by decide)

/-! ### C6: timestamp invariant and monotonicity -/

/-- All notes in the store satisfy `created_at <= updated_at`, and every
`updated_at` is at most the bound `b` (the latest stamp the clock has
produced).  Timestamps are the ISO strings the code stores; the string order
is the lexicographic one, under which equal-format ISO timestamps compare
chronologically. -/
def StampOk (b : String) (s : Store) : Prop :=
  ∀ n ∈ s, n.created_at ≤ n.updated_at ∧ n.updated_at ≤ b

/-- The injected clock is monotone along the call sequence: each stamped call
reads a time at least the bound reached so far. -/
def ClockMono (b : String) : List Op → Prop
  | [] => True
  | Op.create _ _ _ t :: ops => b ≤ Note.now_iso t ∧ ClockMono (Note.now_iso t) ops
  | Op.update _ _ _ t :: ops => b ≤ Note.now_iso t ∧ ClockMono (Note.now_iso t) ops
  | Op.delete _ :: ops => ClockMono b ops

theorem stampOk_create (s : Store) (b : String) (title content freshId t : String)
    (hs : StampOk b s) (hbt : b ≤ Note.now_iso t) :
    StampOk (Note.now_iso t) (InMemoryNotesRepository.create s title content freshId t).2 := by
  intro n hn
  rcases mem_dictSet hn with h1 | h1
  · subst h1; exact ⟨le_refl _, le_refl _⟩
  · rcases hs n h1 with ⟨h2, h3⟩
    exact ⟨h2, h3.trans hbt⟩

theorem stampOk_update (s : Store) (b : String) (note_id : String)
    (title content : Option String) (t : String)
    (hs : StampOk b s) (hbt : b ≤ Note.now_iso t) :
    StampOk (Note.now_iso t) (InMemoryNotesRepository.update s note_id title content t).2 := by
  cases h : dictGet s note_id with
  | none =>
    rw [InMemoryNotesRepository.update, h]
    intro n hn
    rcases hs n hn with ⟨h2, h3⟩
    exact ⟨h2, h3.trans hbt⟩
  | some note =>
    rw [update_found s note_id title content t note h]
    intro n hn
    rcases mem_dictSet hn with h1 | h1
    · subst h1
      rcases hs note (dictGet_mem h) with ⟨h2, h3⟩
      exact ⟨(h2.trans h3).trans hbt, le_refl _⟩
    · rcases hs n h1 with ⟨h2, h3⟩
      exact ⟨h2, h3.trans hbt⟩

theorem stampOk_delete (s : Store) (b : String) (note_id : String) (hs : StampOk b s) :
    StampOk b (InMemoryNotesRepository.delete s note_id).2 := by
  rw [InMemoryNotesRepository.delete]
  by_cases h : (s.any fun n => n.id == note_id) = true
  · rw [if_pos h]
    intro n hn
    exact hs n (List.mem_of_mem_filter hn)
  · rw [if_neg h]
    exact hs

/-- Any monotone-clock call sequence preserves the timestamp invariant, for
some final bound. -/
theorem stampOk_run : ∀ (ops : List Op) (s : Store) (b : String),
    StampOk b s → ClockMono b ops → ∃ b', StampOk b' (run s ops)
  | [], _s, b, hs, _ => ⟨b, hs⟩
  | Op.create title content freshId t :: ops, s, b, hs, hm =>
    stampOk_run ops _ (Note.now_iso t) (stampOk_create s b title content freshId t hs hm.1) hm.2
  | Op.update note_id title content t :: ops, s, b, hs, hm =>
    stampOk_run ops _ (Note.now_iso t) (stampOk_update s b note_id title content t hs hm.1) hm.2
  | Op.delete note_id :: ops, s, b, hs, hm =>
    stampOk_run ops _ b (stampOk_delete s b note_id hs) hm

/-- C6: starting from a store satisfying the timestamp invariant (e.g. the
empty store) and running any sequence of calls whose injected clock readings
are monotone, every note in the resulting store satisfies
`updated_at >= created_at`; moreover, for any note of that store, an `update`
whose clock reading is at least the note's current `updated_at` returns a
note whose post-call `updated_at` is `>= created_at` and `>= updated_at`
before the call. -/
theorem updated_at_ge_created_at (s : Store) (b : String) (ops : List Op)
    (hs : StampOk b s) (hm : ClockMono b ops) :
    (∀ n ∈ run s ops, n.created_at ≤ n.updated_at)
    ∧ ∀ (note_id : String) (title content : Option String) (t : String) (note n' : Note),
        InMemoryNotesRepository.get (run s ops) note_id = some note →
        note.updated_at ≤ Note.now_iso t →
        (InMemoryNotesRepository.update (run s ops) note_id title content t).1 = some n' →
        n'.created_at ≤ n'.updated_at ∧ note.updated_at ≤ n'.updated_at := by
  obtain ⟨b', hb'⟩ := stampOk_run ops s b hs hm
  refine ⟨fun n hn => (hb' n hn).1, ?_⟩
  intro note_id title content t note n' hget hclk hupd
  have hfound : dictGet (run s ops) note_id = some note := hget
  rw [update_found (run s ops) note_id title content t note hfound] at hupd
  have hn' : n' = { id := note.id
                    title := title.getD note.title
                    content := content.getD note.content
                    created_at := note.created_at
                    updated_at := Note.now_iso t } := by
    exact (Option.some_injective _ hupd.symm)
  have hmem : note ∈ run s ops := dictGet_mem hfound
  have hcu : note.created_at ≤ note.updated_at := (hb' note hmem).1
  subst hn'
  exact ⟨hcu.trans hclk, hclk⟩

/-- Witness for C6: one create on the empty store; the created note's
`updated_at` dominates its `created_at`. -/
theorem updated_at_ge_created_at_witness :
    (Note.new "a" "b" "id1" "t0").created_at ≤ (Note.new "a" "b" "id1" "t0").updated_at :=
  (updated_at_ge_created_at [] (Note.now_iso "t0") [Op.create "a" "b" "id1" "t0"]
      (by intro n hn; simp at hn)
      (by exact ⟨le_refl _, trivial⟩)).1
    (Note.new "a" "b" "id1" "t0") (by decide)

/-! ### C7: identity uniqueness -/

/-- The arguments of one `create` call: title, content, and the injected
unique-id and clock readings. -/
structure CreateCall where
  title : String
  content : String
  freshId : String
  t : String

/-- Run a sequence of `create` calls, collecting the returned notes. -/
def runCreates (s : Store) : List CreateCall → List Note
  | [] => []
  | c :: rest =>
    (InMemoryNotesRepository.create s c.title c.content c.freshId c.t).1
      :: runCreates (InMemoryNotesRepository.create s c.title c.content c.freshId c.t).2 rest

theorem runCreates_map_id : ∀ (calls : List CreateCall) (s : Store),
    (runCreates s calls).map Note.id = calls.map CreateCall.freshId
  | [], _ => rfl
  | c :: rest, _s => by
    simp [runCreates, InMemoryNotesRepository.create, Note.new,
      runCreates_map_id rest]

/-- `update` never reassigns an id: the stored key sequence is unchanged. -/
theorem update_map_id (s : Store) (note_id : String) (title content : Option String)
    (t : String) :
    ((InMemoryNotesRepository.update s note_id title content t).2).map Note.id
      = s.map Note.id := by
  cases h : dictGet s note_id with
  | none => rw [InMemoryNotesRepository.update, h]
  | some note =>
    rw [update_found s note_id title content t note h]
    exact dictSet_map_id (show dictGet s note.id = some note from dictGet_id h ▸ h)

/-- C7: when the injected unique-id generator yields pairwise-distinct fresh
identifiers, any sequence of `create` calls returns notes whose ids are
exactly those fresh identifiers, hence pairwise distinct; and `update` never
reassigns an id (the stored key sequence is untouched), so an id is assigned
only at `create` and — the generator never repeating — never reused after
deletion within the store's life. -/
theorem identity_uniqueness (s : Store) (calls : List CreateCall)
    (hfresh : (calls.map CreateCall.freshId).Nodup) :
    (runCreates s calls).map Note.id = calls.map CreateCall.freshId
    ∧ ((runCreates s calls).map Note.id).Nodup
    ∧ ∀ (s' : Store) (note_id : String) (title content : Option String) (t : String),
        ((InMemoryNotesRepository.update s' note_id title content t).2).map Note.id
          = s'.map Note.id :=
  ⟨runCreates_map_id calls s,
   by rw [runCreates_map_id calls s]; exact hfresh,
   fun s' note_id title content t => update_map_id s' note_id title content t⟩

/-- Witness for C7: two creates with distinct injected ids. -/
theorem identity_uniqueness_witness :
    ((runCreates [] [⟨"a", "b", "id1", "t0"⟩, ⟨"c", "d", "id2", "t1"⟩]).map Note.id).Nodup :=
  (identity_uniqueness [] [⟨"a", "b", "id1", "t0"⟩, ⟨"c", "d", "id2", "t1"⟩]
    (by decide)).2.1

/-! ### Pagination: C1, C2, C3 -/

/-- For a positive divisor, Python's `(a + b - 1) // b` is the ceiling of the
exact quotient. -/
theorem ceil_div_eq (a b : ℤ) (hb : 1 ≤ b) :
    ⌈(a : ℚ) / (b : ℚ)⌉ = (a + b - 1) / b := by
  have hb0 : (0 : ℤ) < b := hb
  have hbq : (0 : ℚ) < (b : ℚ) := by exact_mod_cast hb0
  have hdm := Int.ediv_add_emod (a + b - 1) b
  have hr0 : 0 ≤ (a + b - 1) % b := Int.emod_nonneg _ (by omega)
  have hrb : (a + b - 1) % b < b := Int.emod_lt_of_pos _ hb0
  rw [Int.ceil_eq_iff]
  constructor
  · rw [lt_div_iff₀ hbq]
    have h1 : ((a + b - 1) / b - 1) * b < a := by nlinarith [hdm]
    exact_mod_cast h1
  · rw [div_le_iff₀ hbq]
    have h1 : a ≤ ((a + b - 1) / b) * b := by nlinarith [hdm]
    exact_mod_cast h1

/-- A Python slice with nonnegative bounds is drop-then-take. -/
theorem pySlice_nonneg (xs : List Note) (i j : ℤ) (hi : 0 ≤ i) (hj : 0 ≤ j) :
    pySlice xs i j = (xs.drop i.toNat).take (j.toNat - i.toNat) := by
  have h1 : (min i (xs.length : ℤ)).toNat = min i.toNat xs.length := by omega
  have h2 : (min j (xs.length : ℤ)).toNat = min j.toNat xs.length := by omega
  simp only [pySlice, if_neg (not_lt.mpr hi), if_neg (not_lt.mpr hj), h1, h2]
  have htake : xs.take (min j.toNat xs.length) = xs.take j.toNat := by
    rcases le_total j.toNat xs.length with h | h
    · rw [min_eq_left h]
    · rw [min_eq_right h, List.take_length, List.take_of_length_le h]
  have hdrop : (xs.take j.toNat).drop (min i.toNat xs.length)
      = (xs.take j.toNat).drop i.toNat := by
    rcases le_total i.toNat xs.length with h | h
    · rw [min_eq_left h]
    · rw [min_eq_right h]
      have hl : (xs.take j.toNat).length ≤ xs.length := by
        rw [List.length_take]; omega
      rw [List.drop_eq_nil_of_le hl, List.drop_eq_nil_of_le (hl.trans h)]
  rw [htake, hdrop, List.drop_take]

/-- For in-range requests the items of `list` are the drop/take slice at
offset `(page - 1) * page_size`. -/
theorem list_items_eq (s : Store) (page page_size : ℤ) (hp : 1 ≤ page) (hps : 1 ≤ page_size) :
    (InMemoryNotesRepository.list s page page_size).1.items
      = (s.drop ((page - 1) * page_size).toNat).take page_size.toNat := by
  have hstart : 0 ≤ (page - 1) * page_size := mul_nonneg (by omega) (by omega)
  have hstop : 0 ≤ (page - 1) * page_size + page_size := by omega
  have h0 : (InMemoryNotesRepository.list s page page_size).1.items
      = pySlice s ((page - 1) * page_size) ((page - 1) * page_size + page_size) := rfl
  rw [h0, pySlice_nonneg s _ _ hstart hstop]
  congr 1
  omega

/-- C1: the meta record of `list(page, page_size)`, for every store state and
every integer `page` and `page_size`: `total` counts the stored notes;
`total_pages` is the ceiling of `total / page_size` for `page_size >= 1`
(so 0 for an empty store) and is 1 for `page_size <= 0` (divide-by-zero
guard); `first_page` and `last_page` collapse to 0 on an empty store; `page`
is echoed back unmodified; `previous_page` is `page - 1` when `page > 1`,
else null; `next_page` is `page + 1` when `page < total_pages`, else null. -/
theorem list_meta_fields (s : Store) (page page_size : ℤ) :
    (InMemoryNotesRepository.list s page page_size).1.meta.total = s.length
    ∧ (1 ≤ page_size →
        (InMemoryNotesRepository.list s page page_size).1.meta.total_pages
          = ⌈((s.length : ℤ) : ℚ) / ((page_size : ℤ) : ℚ)⌉)
    ∧ (1 ≤ page_size → s.length = 0 →
        (InMemoryNotesRepository.list s page page_size).1.meta.total_pages = 0)
    ∧ (page_size ≤ 0 →
        (InMemoryNotesRepository.list s page page_size).1.meta.total_pages = 1)
    ∧ (InMemoryNotesRepository.list s page page_size).1.meta.first_page
        = (if s.length > 0 then 1 else 0)
    ∧ (InMemoryNotesRepository.list s page page_size).1.meta.last_page
        = (if s.length > 0
            then (InMemoryNotesRepository.list s page page_size).1.meta.total_pages else 0)
    ∧ (InMemoryNotesRepository.list s page page_size).1.meta.page = page
    ∧ (InMemoryNotesRepository.list s page page_size).1.meta.previous_page
        = (if page > 1 then some (page - 1) else none)
    ∧ (InMemoryNotesRepository.list s page page_size).1.meta.next_page
        = (if page < (InMemoryNotesRepository.list s page page_size).1.meta.total_pages
            then some (page + 1) else none) := by
  have hm : (InMemoryNotesRepository.list s page page_size).1.meta.total_pages
      = if page_size > 0 then ((s.length : ℤ) + page_size - 1).fdiv page_size else 1 := rfl
  have hceil : 1 ≤ page_size →
      (InMemoryNotesRepository.list s page page_size).1.meta.total_pages
        = ⌈((s.length : ℤ) : ℚ) / ((page_size : ℤ) : ℚ)⌉ := by
    intro hps
    rw [hm, if_pos (by omega), Int.fdiv_eq_ediv _ (by omega),
      ceil_div_eq (s.length : ℤ) page_size hps]
  refine ⟨rfl, hceil, ?_, ?_, rfl, rfl, rfl, rfl, rfl⟩
  · intro hps h0
    rw [hceil hps, h0]
    simp
  · intro hps
    rw [hm, if_neg (by omega)]

/-- Witness for C1: three notes, page 2, page size 2; the ceiling clause at a
concrete input. -/
theorem list_meta_fields_witness :
    (InMemoryNotesRepository.list
        [Note.new "a" "b" "i1" "t", Note.new "c" "d" "i2" "t", Note.new "e" "f" "i3" "t"]
        2 2).1.meta.total_pages
      = ⌈((([Note.new "a" "b" "i1" "t", Note.new "c" "d" "i2" "t",
            Note.new "e" "f" "i3" "t"] : Store).length : ℤ) : ℚ) / (((2 : ℤ) : ℤ) : ℚ)⌉ :=
  (list_meta_fields
      [Note.new "a" "b" "i1" "t", Note.new "c" "d" "i2" "t", Note.new "e" "f" "i3" "t"]
      2 2).2.1 (by decide)

/-- C2: for `page >= 1` and `page_size >= 1`, the items of `list` are exactly
the slice of the full collection, in insertion order, from offset
`(page - 1) * page_size`, of length at most `page_size`; an offset at or past
the collection size yields empty items with no error. -/
theorem list_items_slice (s : Store) (page page_size : ℤ)
    (hp : 1 ≤ page) (hps : 1 ≤ page_size) :
    (InMemoryNotesRepository.list s page page_size).1.items
      = (s.drop ((page - 1) * page_size).toNat).take page_size.toNat
    ∧ (InMemoryNotesRepository.list s page page_size).1.items.length ≤ page_size.toNat
    ∧ ((s.length : ℤ) ≤ (page - 1) * page_size →
        (InMemoryNotesRepository.list s page page_size).1.items = []) := by
  have h := list_items_eq s page page_size hp hps
  refine ⟨h, ?_, ?_⟩
  · rw [h, List.length_take]
    omega
  · intro hoff
    have hlen : s.length ≤ ((page - 1) * page_size).toNat := by omega
    rw [h, List.drop_eq_nil_of_le hlen, List.take_nil]

/-- Witness for C2: two notes, page 2, page size 1. -/
theorem list_items_slice_witness :
    (InMemoryNotesRepository.list [Note.new "a" "b" "i1" "t", Note.new "c" "d" "i2" "t"]
        2 1).1.items
      = (([Note.new "a" "b" "i1" "t", Note.new "c" "d" "i2" "t"] : Store).drop
          (((2 : ℤ) - 1) * 1).toNat).take (1 : ℤ).toNat :=
  (list_items_slice [Note.new "a" "b" "i1" "t", Note.new "c" "d" "i2" "t"] 2 1
    (by decide) (by decide)).1

/-- Concatenating the `ceil(len / p)` successive chunks of size `p` of a list
restores the list: auxiliary induction on the chunk count. -/
theorem chunk_concat_aux (p : ℕ) (hp : 0 < p) :
    ∀ (m : ℕ) (xs : List Note), (xs.length + p - 1) / p = m →
      (List.range m).flatMap (fun k => (xs.drop (k * p)).take p) = xs := by
  intro m
  induction m with
  | zero =>
    intro xs hm
    have hx : xs.length = 0 := by
      by_contra h
      have h1 : 1 ≤ (xs.length + p - 1) / p := (Nat.one_le_div_iff hp).mpr (by omega)
      omega
    rw [List.length_eq_zero] at hx
    rw [hx]
    simp
  | succ m ih =>
    intro xs hm
    have hlen : 1 ≤ xs.length := by
      by_contra h
      have h0 : xs.length = 0 := by omega
      rw [h0] at hm
      have h1 : (0 + p - 1) / p = 0 := Nat.div_eq_of_lt (by omega)
      omega
    rw [List.range_succ_eq_map, List.flatMap_cons, List.flatMap_map]
    have hdrop : (fun k : ℕ => (((xs.drop p).drop (k * p)).take p))
        = fun k : ℕ => ((xs.drop (Nat.succ k * p)).take p) := by
      funext k
      rw [List.drop_drop]
      have h1 : p + k * p = Nat.succ k * p := by
        rw [Nat.succ_mul, Nat.add_comm]
      rw [h1]
    have hnext : ((xs.drop p).length + p - 1) / p = m := by
      rw [List.length_drop]
      rcases le_or_lt p xs.length with h | h
      · have h1 : xs.length - p + p - 1 = xs.length - 1 := by omega
        rw [h1]
        have h2 : xs.length + p - 1 = (xs.length - 1) + p := by omega
        rw [h2, Nat.add_div_right _ hp] at hm
        omega
      · have h1 : xs.length - p = 0 := by omega
        rw [h1]
        have h2 : (0 + p - 1) / p = 0 := Nat.div_eq_of_lt (by omega)
        rw [h2]
        have h3 : xs.length + p - 1 = (xs.length - 1) + p := by omega
        rw [h3, Nat.add_div_right _ hp] at hm
        have h4 : (xs.length - 1) / p = 0 := Nat.div_eq_of_lt (by omega)
        omega
    have hIH := ih (xs.drop p) hnext
    rw [← hdrop] at *
    rw [hIH]
    simp [List.take_append_drop]

/-- C3: for every `page_size >= 1`, concatenating the items of
`list(page, page_size)` for `page = 1 .. total_pages` restores the full
collection exactly — no omission, no duplication, stable insertion order. -/
theorem pagination_completeness (s : Store) (page_size : ℤ) (hps : 1 ≤ page_size) :
    (List.range ((InMemoryNotesRepository.list s 1 page_size).1.meta.total_pages).toNat).flatMap
        (fun k => (InMemoryNotesRepository.list s ((k : ℤ) + 1) page_size).1.items)
      = s := by
  obtain ⟨p, hp⟩ : ∃ p : ℕ, (p : ℤ) = page_size := ⟨page_size.toNat, by omega⟩
  subst hp
  have hp1 : 1 ≤ p := by omega
  have htp : ((InMemoryNotesRepository.list s 1 (p : ℤ)).1.meta.total_pages).toNat
      = (s.length + p - 1) / p := by
    have hm : (InMemoryNotesRepository.list s 1 (p : ℤ)).1.meta.total_pages
        = if (p : ℤ) > 0 then ((s.length : ℤ) + (p : ℤ) - 1).fdiv (p : ℤ) else 1 := rfl
    rw [hm, if_pos (by omega), Int.fdiv_eq_ediv _ (by omega)]
    have hcast : ((s.length : ℤ) + (p : ℤ) - 1) = ((s.length + p - 1 : ℕ) : ℤ) := by
      omega
    rw [hcast, ← Int.ofNat_ediv, Int.toNat_natCast]
  have hitems : (fun k : ℕ => (InMemoryNotesRepository.list s ((k : ℤ) + 1) (p : ℤ)).1.items)
      = fun k : ℕ => (s.drop (k * p)).take p := by
    funext k
    rw [list_items_eq s ((k : ℤ) + 1) (p : ℤ) (by omega) (by omega)]
    have hoff : (((k : ℤ) + 1 - 1) * (p : ℤ)).toNat = k * p := by
      have h1 : ((k : ℤ) + 1 - 1) * (p : ℤ) = ((k * p : ℕ) : ℤ) := by push_cast [Nat.cast_mul]; ring
      rw [h1, Int.toNat_natCast]
    rw [hoff, Int.toNat_natCast]
  rw [htp, hitems]
  exact chunk_concat_aux p (by omega) _ s rfl

/-- Witness for C3: three notes, page size 2 — pages 1 and 2 concatenate to
the whole collection. -/
theorem pagination_completeness_witness :
    (InMemoryNotesRepository.list
        [Note.new "a" "b" "i1" "t", Note.new "c" "d" "i2" "t", Note.new "e" "f" "i3" "t"]
        1 2).1.items
      ++ (InMemoryNotesRepository.list
          [Note.new "a" "b" "i1" "t", Note.new "c" "d" "i2" "t", Note.new "e" "f" "i3" "t"]
          2 2).1.items
      = [Note.new "a" "b" "i1" "t", Note.new "c" "d" "i2" "t", Note.new "e" "f" "i3" "t"] := by
  have h := pagination_completeness
    [Note.new "a" "b" "i1" "t", Note.new "c" "d" "i2" "t", Note.new "e" "f" "i3" "t"]
    2 (by decide)
  simpa using h

end NoteKeeper
